import Mathlib

/-!
Shallow embedding of the financial-report core of the repository
(the `utils/finance` module re-exported through `services/geminiService.ts`,
with data types from `types.ts`).  Amounts are modelled as rationals
(exact arithmetic); the JavaScript implementation uses IEEE doubles, so
equalities proved here hold within floating-point tolerance there.
-/

namespace Fin2

/-- `AccountCategory` enum from `types.ts`. -/
inductive AccountCategory where
  | ASSET
  | LIABILITY
  | EQUITY
  | REVENUE
  | EXPENSE
deriving DecidableEq

/-- `TransactionType` enum from `types.ts`. -/
inductive TransactionType where
  | DEBIT
  | CREDIT
deriving DecidableEq

/-- `Transaction` interface from `types.ts`. -/
structure Transaction where
  id : String
  date : String
  description : String
  accountName : String
  category : AccountCategory
  amount : ℚ
  type : TransactionType
deriving DecidableEq

/-- `TrialBalanceItem` interface from `types.ts`. -/
structure TrialBalanceItem where
  accountName : String
  category : AccountCategory
  debit : ℚ
  credit : ℚ
deriving DecidableEq

/-- `StatementItem` interface from `types.ts`; the optional `isTotal`
presentation marker is never set by the core and is omitted. -/
structure StatementItem where
  label : String
  amount : ℚ
deriving DecidableEq

/-- `EquityChangeItem` interface from `types.ts`. -/
structure EquityChangeItem where
  accountName : String
  openingBalance : ℚ
  additions : ℚ
  netIncome : ℚ
  withdrawals : ℚ
  closingBalance : ℚ
deriving DecidableEq

/-- `FinancialNote` interface from `types.ts`. -/
structure FinancialNote where
  noteNumber : Nat
  title : String
  content : String
  data : Option (List StatementItem)
deriving DecidableEq

/-- `BankStatementItem` interface from `types.ts`:
positive amount is a deposit, negative a withdrawal. -/
structure BankStatementItem where
  id : String
  date : String
  description : String
  amount : ℚ
deriving DecidableEq

/-- The status taxonomy of `ReconMatch` in `types.ts`. -/
inductive ReconStatus where
  | matched
  | missing_in_statement
  | missing_in_book
  | amount_mismatch
deriving DecidableEq

/-- `ReconMatch` interface from `types.ts`. -/
structure ReconMatch where
  bookEntry : Option Transaction
  statementEntry : Option BankStatementItem
  status : ReconStatus
deriving DecidableEq

/-- The `incomeStatement` component of `FinancialStatements`. -/
structure IncomeStatementR where
  revenue : List StatementItem
  expenses : List StatementItem
  totalRevenue : ℚ
  totalExpenses : ℚ
  netIncome : ℚ
deriving DecidableEq

/-- The `balanceSheet` component of `FinancialStatements`. -/
structure BalanceSheetR where
  assets : List StatementItem
  liabilities : List StatementItem
  equity : List StatementItem
  totalAssets : ℚ
  totalLiabilities : ℚ
  totalEquity : ℚ
deriving DecidableEq

/-- The `cashFlow` component of `FinancialStatements`. -/
structure CashFlowR where
  operating : List StatementItem
  investing : List StatementItem
  financing : List StatementItem
  netCashFlow : ℚ
deriving DecidableEq

/-- The `variance` component of `FinancialStatements`. -/
structure VarianceR where
  revenueActual : ℚ
  revenueBudget : ℚ
  expenseActual : ℚ
  expenseBudget : ℚ
deriving DecidableEq

/-- `FinancialStatements` interface from `types.ts`. -/
structure FinancialStatements where
  trialBalance : List TrialBalanceItem
  incomeStatement : IncomeStatementR
  balanceSheet : BalanceSheetR
  cashFlow : CashFlowR
  equityChanges : List EquityChangeItem
  notes : List FinancialNote
  variance : VarianceR

/-! ### Trial balance builder (`calculateStatements`, step 1)

The JavaScript `Map` keyed by `accountName` is modelled as an association
list in insertion order: `Map.set` on an existing key updates it in place,
on a fresh key appends at the end. -/

/-- Contribution of one transaction to its account's debit column:
`if (tx.type === TransactionType.DEBIT) current.debit += tx.amount`. -/
def debitInc (tx : Transaction) : ℚ :=
  if tx.type = TransactionType.DEBIT then tx.amount else 0

/-- Contribution of one transaction to its account's credit column:
`else current.credit += tx.amount`. -/
def creditInc (tx : Transaction) : ℚ :=
  if tx.type = TransactionType.DEBIT then 0 else tx.amount

/-- One step of the `transactions.forEach` accumulation loop of
`calculateStatements`: fetch the account record (or a fresh
`category/0/0` record), add the amount to the debit side when the type is
`Debit` and to the credit side otherwise, and store it back. -/
def applyTx (acc : List TrialBalanceItem) (tx : Transaction) : List TrialBalanceItem :=
  match acc with
  | [] => [⟨tx.accountName, tx.category, debitInc tx, creditInc tx⟩]
  | it :: rest =>
      if it.accountName = tx.accountName then
        ⟨it.accountName, it.category, it.debit + debitInc tx, it.credit + creditInc tx⟩ :: rest
      else
        it :: applyTx rest tx

/-- The trial-balance accumulation of `calculateStatements` (lines 62-75):
fold all transactions through `applyTx`, starting from the empty map. -/
def buildTrialBalance (transactions : List Transaction) : List TrialBalanceItem :=
  transactions.foldl applyTx []

/-! ### Statement derivation (`calculateStatements`, steps 2-3) -/

/-- The `reduce((s, i) => s + i.amount, 0)` idiom used for every total. -/
def sumAmounts (l : List StatementItem) : ℚ :=
  l.foldl (fun s i => s + i.amount) 0

/-- Revenue rows: category `Revenue`, amount `credit - debit`. -/
def revenueItems (tb : List TrialBalanceItem) : List StatementItem :=
  (tb.filter fun i => decide (i.category = AccountCategory.REVENUE)).map
    fun i => ⟨i.accountName, i.credit - i.debit⟩

/-- Expense rows: category `Expense`, amount `debit - credit`. -/
def expenseItems (tb : List TrialBalanceItem) : List StatementItem :=
  (tb.filter fun i => decide (i.category = AccountCategory.EXPENSE)).map
    fun i => ⟨i.accountName, i.debit - i.credit⟩

/-- Asset rows: category `Asset`, amount `debit - credit`. -/
def assetItems (tb : List TrialBalanceItem) : List StatementItem :=
  (tb.filter fun i => decide (i.category = AccountCategory.ASSET)).map
    fun i => ⟨i.accountName, i.debit - i.credit⟩

/-- Liability rows: category `Liability`, amount `credit - debit`. -/
def liabilityItems (tb : List TrialBalanceItem) : List StatementItem :=
  (tb.filter fun i => decide (i.category = AccountCategory.LIABILITY)).map
    fun i => ⟨i.accountName, i.credit - i.debit⟩

/-- Raw equity rows: category `Equity`, amount `credit - debit`. -/
def rawEquityItems (tb : List TrialBalanceItem) : List StatementItem :=
  (tb.filter fun i => decide (i.category = AccountCategory.EQUITY)).map
    fun i => ⟨i.accountName, i.credit - i.debit⟩

/-! ### Cash-flow classifier (`calculateStatements`, step 5) -/

/-- The fixed `cashAccounts` list of `calculateStatements`. -/
def cashAccounts : List String := ["Cash", "Bank", "Petty Cash"]

/-- Whether the character list `l` starts with the character list `pat`. -/
def startsWithL : List Char → List Char → Bool
  | _, [] => true
  | [], _ :: _ => false
  | a :: as, b :: bs => a = b && startsWithL as bs

/-- Whether `pat` occurs as a contiguous run inside `l`; this models the
JavaScript `String.prototype.includes` substring test on the underlying
character lists. -/
def containsL (pat : List Char) : List Char → Bool
  | [] => startsWithL [] pat
  | c :: rest => startsWithL (c :: rest) pat || containsL pat rest

/-- `s.includes(pat)` on strings. -/
def strIncludes (s pat : String) : Bool :=
  containsL pat.data s.data

/-- `cashAccounts.some(acc => name.includes(acc))`: does an account name
contain one of the cash-account substrings. -/
def isCashAccount (name : String) : Bool :=
  cashAccounts.any fun acc => strIncludes name acc

/-- The signed amount `+amount` if `Debit` else `-amount`: the cash
perspective used by the cash-flow loop and the reconciliation matcher. -/
def signedAmount (tx : Transaction) : ℚ :=
  if tx.type = TransactionType.DEBIT then tx.amount else -tx.amount

/-- One iteration of the cash-flow `forEach` of `calculateStatements`
(lines 133-138), pushing the item onto the operating, investing or
financing accumulator according to the `if / else if / else if` chain. -/
def cfStep (acc : List StatementItem × List StatementItem × List StatementItem)
    (tx : Transaction) : List StatementItem × List StatementItem × List StatementItem :=
  let amt := signedAmount tx
  let item : StatementItem := ⟨tx.description, amt⟩
  if tx.category = AccountCategory.REVENUE ∨ tx.category = AccountCategory.EXPENSE then
    (acc.1 ++ [item], acc.2.1, acc.2.2)
  else if tx.category = AccountCategory.ASSET ∧ ¬(isCashAccount tx.accountName = true) then
    (acc.1, acc.2.1 ++ [item], acc.2.2)
  else if tx.category = AccountCategory.LIABILITY ∨ tx.category = AccountCategory.EQUITY then
    (acc.1, acc.2.1, acc.2.2 ++ [item])
  else
    acc

/-- The cash-flow bucket lists `(op, inv, fin)` of `calculateStatements`:
restrict to transactions whose account name contains a cash-account
substring, then classify each through `cfStep`. -/
def cashFlowLists (transactions : List Transaction) :
    List StatementItem × List StatementItem × List StatementItem :=
  (transactions.filter fun tx => isCashAccount tx.accountName).foldl cfStep ([], [], [])

/-! ### The composed report (`calculateStatements`) -/

/-- The equity roll-forward mapping of `calculateStatements` (lines
108-115) applied to one raw equity row. -/
def rollForward (item : StatementItem) : EquityChangeItem :=
  ⟨item.label,
    (if item.amount > 50000 then 50000 else 0),
    (if item.amount > 50000 then item.amount - 50000 else item.amount),
    0, 0, item.amount⟩

/-- `calculateStatements` from the finance module: derives the full
`FinancialStatements` snapshot from the transaction list. -/
def calculateStatements (transactions : List Transaction) : FinancialStatements :=
  let trialBalance := buildTrialBalance transactions
  let revenue := revenueItems trialBalance
  let expenses := expenseItems trialBalance
  let totalRev := sumAmounts revenue
  let totalExp := sumAmounts expenses
  let netInc := totalRev - totalExp
  let assets := assetItems trialBalance
  let liabilities := liabilityItems trialBalance
  let rawEquity := rawEquityItems trialBalance
  let balanceSheetEquity := rawEquity ++ [⟨"Current Period Earnings", netInc⟩]
  let totalAssets := sumAmounts assets
  let totalLiabilities := sumAmounts liabilities
  let totalEquity := sumAmounts balanceSheetEquity
  let equityChanges :=
    rawEquity.map rollForward ++ [⟨"Retained Earnings", 0, 0, netInc, 0, netInc⟩]
  let cf := cashFlowLists transactions
  let notes : List FinancialNote :=
    [⟨1, "Basis of Preparation",
       "The financial statements have been prepared on the historical cost basis in accordance with International Financial Reporting Standards (IFRS).",
       none⟩,
     ⟨2, "Revenue Recognition",
       "Revenue is recognized when the significant risks and rewards of ownership have been transferred to the customer. For this period, revenue primarily consists of product sales.",
       some revenue⟩,
     ⟨3, "Cash and Cash Equivalents",
       "Cash and cash equivalents comprise cash on hand and demand deposits with banks.",
       some (assets.filter fun a => cashAccounts.any fun ca => strIncludes a.label ca)⟩,
     ⟨4, "Property, Plant and Equipment",
       "Equipment is stated at cost less accumulated depreciation. Depreciation is calculated on a straight-line basis over the estimated useful lives of the assets.",
       some (assets.filter fun a => !(cashAccounts.any fun ca => strIncludes a.label ca))⟩]
  { trialBalance := trialBalance
    incomeStatement := ⟨revenue, expenses, totalRev, totalExp, netInc⟩
    balanceSheet := ⟨assets, liabilities, balanceSheetEquity, totalAssets, totalLiabilities, totalEquity⟩
    cashFlow := ⟨cf.1, cf.2.1, cf.2.2, totalAssets - totalLiabilities - totalEquity + netInc⟩
    equityChanges := equityChanges
    notes := notes
    variance := ⟨totalRev, 65000, totalExp, 15000⟩ }

/-! ### Bank reconciliation (`performBankReconciliation`) -/

/-- The `.find(...)` predicate of `performBankReconciliation`: identical
date, identical signed amount, id not yet consumed. -/
def reconPred (consumed : List String) (d : String) (a : ℚ) (st : BankStatementItem) : Bool :=
  st.date == d && decide (st.amount = a) && !decide (st.id ∈ consumed)

/-- One iteration of the `bookEntries.forEach` loop of
`performBankReconciliation`: the pair carries the emitted records so far
and the list of consumed statement ids. -/
def reconStep (sts : List BankStatementItem)
    (p : List ReconMatch × List String) (book : Transaction) :
    List ReconMatch × List String :=
  match sts.find? (reconPred p.2 book.date (signedAmount book)) with
  | some st => (p.1 ++ [⟨some book, some st, ReconStatus.matched⟩], p.2 ++ [st.id])
  | none => (p.1 ++ [⟨some book, none, ReconStatus.missing_in_statement⟩], p.2)

/-- `performBankReconciliation` from the finance module: match every book
entry against the first unconsumed statement entry with the same date and
signed amount, then report every unconsumed statement entry as missing in
the books. -/
def performBankReconciliation (bookEntries : List Transaction)
    (statementEntries : List BankStatementItem) : List ReconMatch :=
  let p := bookEntries.foldl (reconStep statementEntries) ([], [])
  p.1 ++ (statementEntries.filter fun st => !decide (st.id ∈ p.2)).map
    fun st => ⟨none, some st, ReconStatus.missing_in_book⟩

/-- Recursive presentation of the reconciliation loop, with the consumed-id
list made explicit; `performBankReconciliation` unfolds to
`reconGo sts books []` (proved below). -/
def reconGo (sts : List BankStatementItem) :
    List Transaction → List String → List ReconMatch
  | [], consumed =>
      (sts.filter fun st => !decide (st.id ∈ consumed)).map
        fun st => ⟨none, some st, ReconStatus.missing_in_book⟩
  | book :: rest, consumed =>
      match sts.find? (reconPred consumed book.date (signedAmount book)) with
      | some st => ⟨some book, some st, ReconStatus.matched⟩ :: reconGo sts rest (consumed ++ [st.id])
      | none => ⟨some book, none, ReconStatus.missing_in_statement⟩ :: reconGo sts rest consumed

/-! ### Trend aggregator (`getTrendData`) -/

/-- The fixed `months` label list of `getTrendData`. -/
def monthNames : List String :=
  ["Jan", "Feb", "Mar", "Apr", "May", "Jun", "Jul", "Aug", "Sep", "Oct", "Nov", "Dec"]

/-- Zero-based calendar month index extracted from an ISO `YYYY-MM-DD`
date string; this models `new Date(d).getMonth()` for well-formed dates
(`none` models the out-of-range `NaN` index of an unparseable date;
locale effects are out of scope). -/
def monthIndex (date : String) : Option Nat :=
  match date.data with
  | _ :: _ :: _ :: _ :: sep :: m1 :: m2 :: _ =>
      if sep = '-' ∧ m1.isDigit ∧ m2.isDigit then
        let m := (m1.toNat - 48) * 10 + (m2.toNat - 48)
        if 1 ≤ m ∧ m ≤ 12 then some (m - 1) else none
      else none
  | _ => none

/-- `months[new Date(d).getMonth()]`: the month label keying the trend
map. -/
def monthLabel (date : String) : Option String :=
  (monthIndex date).bind fun i => monthNames.get? i

/-- A value of the trend `dataMap`. -/
structure TrendAcc where
  revenue : ℚ
  expense : ℚ
  profit : ℚ
deriving DecidableEq

/-- One row of the `getTrendData` output. -/
structure TrendPoint where
  month : String
  revenue : ℚ
  expense : ℚ
  profit : ℚ
deriving DecidableEq

/-- Association-list lookup for the trend map (insertion-ordered model of
the JavaScript `Map`). -/
def lookupA : List (String × TrendAcc) → String → Option TrendAcc
  | [], _ => none
  | (k, v) :: rest, key => if k = key then some v else lookupA rest key

/-- Association-list `Map.set`: update an existing key in place, append a
fresh key at the end. -/
def setA : List (String × TrendAcc) → String → TrendAcc → List (String × TrendAcc)
  | [], key, v => [(key, v)]
  | (k, w) :: rest, key, v =>
      if k = key then (key, v) :: rest else (k, w) :: setA rest key v

/-- One iteration of the `transactions.forEach` loop of `getTrendData`:
fetch (or default) the month bucket, add revenue or expense amounts, and
recompute profit.  A date with no extractable month is skipped; such a
transaction can never surface in the twelve-month output. -/
def trendStep (m : List (String × TrendAcc)) (tx : Transaction) :
    List (String × TrendAcc) :=
  match monthLabel tx.date with
  | none => m
  | some label =>
      let current := (lookupA m label).getD ⟨0, 0, 0⟩
      let c1 : TrendAcc :=
        if tx.category = AccountCategory.REVENUE then
          ⟨current.revenue + tx.amount, current.expense, current.profit⟩
        else if tx.category = AccountCategory.EXPENSE then
          ⟨current.revenue, current.expense + tx.amount, current.profit⟩
        else current
      setA m label ⟨c1.revenue, c1.expense, c1.revenue - c1.expense⟩

/-- `getTrendData` from the finance module: twelve monthly buckets in
`Jan..Dec` order, each filled from the trend map or zeroed. -/
def getTrendData (transactions : List Transaction) : List TrendPoint :=
  let m := transactions.foldl trendStep []
  monthNames.map fun name =>
    match lookupA m name with
    | some d => ⟨name, d.revenue, d.expense, d.profit⟩
    | none => ⟨name, 0, 0, 0⟩

/-! ## Basic lemmas about the embedded operations -/

lemma foldl_add_amount (l : List StatementItem) (s : ℚ) :
    l.foldl (fun a i => a + i.amount) s = s + (l.map (·.amount)).sum := by
  induction l generalizing s with
  | nil => simp
  | cons i rest ih => simp [ih, add_assoc]

lemma sumAmounts_eq (l : List StatementItem) :
    sumAmounts l = (l.map (·.amount)).sum := by
  simp [sumAmounts, foldl_add_amount]

lemma sumAmounts_append (l l' : List StatementItem) :
    sumAmounts (l ++ l') = sumAmounts l + sumAmounts l' := by
  simp [sumAmounts_eq]

lemma sumAmounts_singleton (x : StatementItem) : sumAmounts [x] = x.amount := by
  simp [sumAmounts_eq]

/-! Projection lemmas unfolding the composed report to its components. -/

lemma cs_trialBalance (txs : List Transaction) :
    (calculateStatements txs).trialBalance = buildTrialBalance txs := rfl

lemma cs_totalRevenue (txs : List Transaction) :
    (calculateStatements txs).incomeStatement.totalRevenue =
      sumAmounts (revenueItems (buildTrialBalance txs)) := rfl

lemma cs_totalExpenses (txs : List Transaction) :
    (calculateStatements txs).incomeStatement.totalExpenses =
      sumAmounts (expenseItems (buildTrialBalance txs)) := rfl

lemma cs_netIncome (txs : List Transaction) :
    (calculateStatements txs).incomeStatement.netIncome =
      sumAmounts (revenueItems (buildTrialBalance txs)) -
        sumAmounts (expenseItems (buildTrialBalance txs)) := rfl

lemma cs_equity (txs : List Transaction) :
    (calculateStatements txs).balanceSheet.equity =
      rawEquityItems (buildTrialBalance txs) ++
        [⟨"Current Period Earnings", (calculateStatements txs).incomeStatement.netIncome⟩] := rfl

lemma cs_totalAssets (txs : List Transaction) :
    (calculateStatements txs).balanceSheet.totalAssets =
      sumAmounts (assetItems (buildTrialBalance txs)) := rfl

lemma cs_totalLiabilities (txs : List Transaction) :
    (calculateStatements txs).balanceSheet.totalLiabilities =
      sumAmounts (liabilityItems (buildTrialBalance txs)) := rfl

lemma cs_totalEquity (txs : List Transaction) :
    (calculateStatements txs).balanceSheet.totalEquity =
      sumAmounts ((calculateStatements txs).balanceSheet.equity) := rfl

lemma cs_equityChanges (txs : List Transaction) :
    (calculateStatements txs).equityChanges =
      (rawEquityItems (buildTrialBalance txs)).map rollForward ++
        [⟨"Retained Earnings", 0, 0, (calculateStatements txs).incomeStatement.netIncome, 0,
          (calculateStatements txs).incomeStatement.netIncome⟩] := rfl

lemma cs_netCashFlow (txs : List Transaction) :
    (calculateStatements txs).cashFlow.netCashFlow =
      (calculateStatements txs).balanceSheet.totalAssets -
        (calculateStatements txs).balanceSheet.totalLiabilities -
        (calculateStatements txs).balanceSheet.totalEquity +
        (calculateStatements txs).incomeStatement.netIncome := rfl

lemma cs_investing (txs : List Transaction) :
    (calculateStatements txs).cashFlow.investing = (cashFlowLists txs).2.1 := rfl

/-! ## C10: the investing bucket is unreachable -/

lemma cfStep_investing (acc : List StatementItem × List StatementItem × List StatementItem)
    (tx : Transaction) (h : isCashAccount tx.accountName = true) :
    (cfStep acc tx).2.1 = acc.2.1 := by
  simp only [cfStep]
  split
  · rfl
  · split
    · rename_i hinv
      exact absurd h hinv.2
    · split
      · rfl
      · rfl

lemma cfStep_investing_nil (l : List Transaction) :
    ∀ acc : List StatementItem × List StatementItem × List StatementItem,
      (∀ tx ∈ l, isCashAccount tx.accountName = true) → acc.2.1 = [] →
      (l.foldl cfStep acc).2.1 = [] := by
  induction l with
  | nil => intro acc _ h; simpa using h
  | cons tx rest ih =>
      intro acc hcash hacc
      have htx : isCashAccount tx.accountName = true := hcash tx (List.mem_cons_self tx rest)
      have hrest : ∀ t ∈ rest, isCashAccount t.accountName = true :=
        fun t ht => hcash t (List.mem_cons_of_mem tx ht)
      simp only [List.foldl_cons]
      exact ih (cfStep acc tx) hrest ((cfStep_investing acc tx htx).trans hacc)

/-! ## Reconciliation: foldl loop versus recursive presentation -/

lemma foldl_reconStep (sts : List BankStatementItem) :
    ∀ (books : List Transaction) (acc : List ReconMatch) (consumed : List String),
      (books.foldl (reconStep sts) (acc, consumed)).1 ++
        (sts.filter fun st => !decide (st.id ∈ (books.foldl (reconStep sts) (acc, consumed)).2)).map
          (fun st => ⟨none, some st, ReconStatus.missing_in_book⟩) =
      acc ++ reconGo sts books consumed := by
  intro books
  induction books with
  | nil => intro acc consumed; simp [reconGo]
  | cons book rest ih =>
      intro acc consumed
      simp only [List.foldl_cons, reconGo]
      cases hf : sts.find? (reconPred consumed book.date (signedAmount book)) with
      | some st =>
          simp only [reconStep, hf]
          rw [ih]
          simp
      | none =>
          simp only [reconStep, hf]
          rw [ih]
          simp

lemma recon_eq_go (books : List Transaction) (sts : List BankStatementItem) :
    performBankReconciliation books sts = reconGo sts books [] := by
  have h := foldl_reconStep sts books [] []
  simpa [performBankReconciliation] using h

lemma reconGo_status (sts : List BankStatementItem) :
    ∀ (books : List Transaction) (consumed : List String),
      ∀ m ∈ reconGo sts books consumed,
        m.status = ReconStatus.matched ∨ m.status = ReconStatus.missing_in_statement ∨
          m.status = ReconStatus.missing_in_book := by
  intro books
  induction books with
  | nil =>
      intro consumed m hm
      simp only [reconGo, List.mem_map] at hm
      obtain ⟨st, -, rfl⟩ := hm
      right; right; rfl
  | cons book rest ih =>
      intro consumed m hm
      simp only [reconGo] at hm
      cases hf : sts.find? (reconPred consumed book.date (signedAmount book)) with
      | some st =>
          rw [hf] at hm
          rcases List.mem_cons.mp hm with rfl | hm
          · left; rfl
          · exact ih _ m hm
      | none =>
          rw [hf] at hm
          rcases List.mem_cons.mp hm with rfl | hm
          · right; left; rfl
          · exact ih _ m hm

/-! ## Concrete fixtures used by counter-positions and witnesses -/

/-- A one-transaction ledger: a 100-unit debit to the `Cash` asset
account. -/
def cashOnlyLedger : List Transaction :=
  [⟨"1", "2023-10-01", "Cash deposit", "Cash", AccountCategory.ASSET, 100, TransactionType.DEBIT⟩]

/-! ## Claim theorems -/

/-- C6: for every transaction list the reported `netCashFlow` equals
`totalAssets - totalLiabilities - totalEquity + netIncome` computed in the
same result, and it is not in general the sum of the operating, investing
and financing bucket amounts (witnessed by `cashOnlyLedger`, where the
buckets sum to 0 but `netCashFlow` is 100). -/
theorem claim_C6_netCashFlow_identity :
    (∀ txs : List Transaction,
      (calculateStatements txs).cashFlow.netCashFlow =
        (calculateStatements txs).balanceSheet.totalAssets -
          (calculateStatements txs).balanceSheet.totalLiabilities -
          (calculateStatements txs).balanceSheet.totalEquity +
          (calculateStatements txs).incomeStatement.netIncome)
    ∧ (calculateStatements cashOnlyLedger).cashFlow.netCashFlow ≠
        sumAmounts (calculateStatements cashOnlyLedger).cashFlow.operating +
          sumAmounts (calculateStatements cashOnlyLedger).cashFlow.investing +
          sumAmounts (calculateStatements cashOnlyLedger).cashFlow.financing := by
  constructor
  · intro txs; rfl
  · with_unfolding_all decide

/-- C10: the investing bucket of the cash-flow statement is always empty:
the loop first restricts to cash-account transactions and the investing
branch additionally requires a non-cash account name. -/
theorem claim_C10_investing_empty (txs : List Transaction) :
    (calculateStatements txs).cashFlow.investing = [] := by
  rw [cs_investing]
  unfold cashFlowLists
  exact cfStep_investing_nil _ _ (fun tx htx => (List.mem_filter.mp htx).2) rfl

/-- C9: every record produced by `performBankReconciliation` has status
`matched`, `missing_in_statement` or `missing_in_book`; the
`amount_mismatch` status is never produced. -/
theorem claim_C9_no_amount_mismatch (books : List Transaction)
    (sts : List BankStatementItem) :
    ∀ m ∈ performBankReconciliation books sts,
      (m.status = ReconStatus.matched ∨ m.status = ReconStatus.missing_in_statement ∨
        m.status = ReconStatus.missing_in_book) ∧
      m.status ≠ ReconStatus.amount_mismatch := by
  intro m hm
  rw [recon_eq_go] at hm
  have h := reconGo_status sts books [] m hm
  refine ⟨h, ?_⟩
  rcases h with h | h | h <;> rw [h] <;> intro hc <;> exact ReconStatus.noConfusion hc

/-- C8: each equity roll-forward row derived from a raw equity row with
amount `A` has opening balance 50000 and additions `A - 50000` when
`A > 50000`, otherwise opening balance 0 and additions `A`; its net income
and withdrawals are 0 and its closing balance is `A`; and exactly one
final `Retained Earnings` row is appended carrying the period net income
as both `netIncome` and `closingBalance`.  The raw equity rows are the
balance-sheet equity list without its final synthetic row. -/
theorem claim_C8_equity_roll_forward (txs : List Transaction) :
    (calculateStatements txs).equityChanges =
      ((calculateStatements txs).balanceSheet.equity.dropLast).map
        (fun item =>
          ⟨item.label,
           (if item.amount > 50000 then 50000 else 0),
           (if item.amount > 50000 then item.amount - 50000 else item.amount),
           0, 0, item.amount⟩)
      ++ [⟨"Retained Earnings", 0, 0, (calculateStatements txs).incomeStatement.netIncome, 0,
          (calculateStatements txs).incomeStatement.netIncome⟩] := by
  rw [cs_equityChanges, cs_equity, List.dropLast_concat]
  rfl

/-! ## Characterization of the trial-balance builder -/

/-- First-seen order of the distinct account names of a transaction list:
the key order of the JavaScript `Map` built by `calculateStatements`. -/
def firstSeenNames (txs : List Transaction) : List String :=
  txs.foldl (fun acc tx => if tx.accountName ∈ acc then acc else acc ++ [tx.accountName]) []

/-- Sum of the amounts of the Debit-type transactions of one account. -/
def debitSum (txs : List Transaction) (name : String) : ℚ :=
  ((txs.filter fun tx =>
    decide (tx.accountName = name ∧ tx.type = TransactionType.DEBIT)).map (·.amount)).sum

/-- Sum of the amounts of the Credit-type transactions of one account. -/
def creditSum (txs : List Transaction) (name : String) : ℚ :=
  ((txs.filter fun tx =>
    decide (tx.accountName = name ∧ tx.type = TransactionType.CREDIT)).map (·.amount)).sum

lemma buildTrialBalance_append (txs : List Transaction) (t : Transaction) :
    buildTrialBalance (txs ++ [t]) = applyTx (buildTrialBalance txs) t := by
  simp [buildTrialBalance, List.foldl_append]

lemma applyTx_names (acc : List TrialBalanceItem) (t : Transaction) :
    (applyTx acc t).map (·.accountName) =
      if t.accountName ∈ acc.map (·.accountName) then acc.map (·.accountName)
      else acc.map (·.accountName) ++ [t.accountName] := by
  induction acc with
  | nil => simp [applyTx]
  | cons it rest ih =>
      by_cases h : it.accountName = t.accountName
      · simp [applyTx, h]
      · simp only [applyTx, if_neg h, List.map_cons]
        rw [ih]
        by_cases hm : t.accountName ∈ rest.map (·.accountName)
        · simp [hm, List.mem_cons, Ne.symm h]
        · simp [hm, List.mem_cons, Ne.symm h]

lemma applyTx_find_ne (acc : List TrialBalanceItem) (t : Transaction) (name : String)
    (h : t.accountName ≠ name) :
    (applyTx acc t).find? (fun it => decide (it.accountName = name)) =
      acc.find? (fun it => decide (it.accountName = name)) := by
  induction acc with
  | nil => simp [applyTx, List.find?, h]
  | cons it rest ih =>
      by_cases hit : it.accountName = t.accountName
      · have hne : ¬(it.accountName = name) := by rw [hit]; exact h
        simp [applyTx, hit, List.find?, hne, h]
      · simp only [applyTx, if_neg hit]
        by_cases hn : it.accountName = name
        · simp [List.find?, hn]
        · simp [List.find?, hn, ih]

lemma applyTx_find_eq (acc : List TrialBalanceItem) (t : Transaction) :
    (applyTx acc t).find? (fun it => decide (it.accountName = t.accountName)) =
      some (match acc.find? (fun it => decide (it.accountName = t.accountName)) with
            | some old =>
                ⟨old.accountName, old.category, old.debit + debitInc t, old.credit + creditInc t⟩
            | none => ⟨t.accountName, t.category, debitInc t, creditInc t⟩) := by
  induction acc with
  | nil => simp [applyTx, List.find?]
  | cons it rest ih =>
      by_cases hit : it.accountName = t.accountName
      · simp [applyTx, hit, List.find?]
      · simp only [applyTx, if_neg hit]
        simp [List.find?, hit, ih]

lemma debitSum_append_ne (txs : List Transaction) (t : Transaction) (name : String)
    (h : t.accountName ≠ name) : debitSum (txs ++ [t]) name = debitSum txs name := by
  simp [debitSum, List.filter_append, List.filter, h]

lemma creditSum_append_ne (txs : List Transaction) (t : Transaction) (name : String)
    (h : t.accountName ≠ name) : creditSum (txs ++ [t]) name = creditSum txs name := by
  simp [creditSum, List.filter_append, List.filter, h]

lemma debitSum_append_eq (txs : List Transaction) (t : Transaction) :
    debitSum (txs ++ [t]) t.accountName = debitSum txs t.accountName + debitInc t := by
  cases ht : t.type <;>
    simp [debitSum, debitInc, List.filter_append, List.filter, ht]

lemma creditSum_append_eq (txs : List Transaction) (t : Transaction) :
    creditSum (txs ++ [t]) t.accountName = creditSum txs t.accountName + creditInc t := by
  cases ht : t.type <;>
    simp [creditSum, creditInc, List.filter_append, List.filter, ht]

lemma debitSum_of_absent (txs : List Transaction) (name : String)
    (h : ∀ tx ∈ txs, tx.accountName ≠ name) : debitSum txs name = 0 := by
  have : (txs.filter fun tx =>
      decide (tx.accountName = name ∧ tx.type = TransactionType.DEBIT)) = [] := by
    refine List.filter_eq_nil_iff.mpr fun tx hm => ?_
    simp [h tx hm]
  unfold debitSum
  rw [this]
  rfl

lemma creditSum_of_absent (txs : List Transaction) (name : String)
    (h : ∀ tx ∈ txs, tx.accountName ≠ name) : creditSum txs name = 0 := by
  have : (txs.filter fun tx =>
      decide (tx.accountName = name ∧ tx.type = TransactionType.CREDIT)) = [] := by
    refine List.filter_eq_nil_iff.mpr fun tx hm => ?_
    simp [h tx hm]
  unfold creditSum
  rw [this]
  rfl

lemma tb_find (txs : List Transaction) (name : String) :
    (buildTrialBalance txs).find? (fun it => decide (it.accountName = name)) =
      (txs.find? fun tx => decide (tx.accountName = name)).map
        (fun tx0 => (⟨name, tx0.category, debitSum txs name, creditSum txs name⟩ :
          TrialBalanceItem)) := by
  induction txs using List.reverseRecOn with
  | nil => simp [buildTrialBalance, List.find?]
  | append_singleton txs t ih =>
      rw [buildTrialBalance_append]
      by_cases h : t.accountName = name
      · subst h
        rw [applyTx_find_eq, ih]
        cases hf : txs.find? (fun tx => decide (tx.accountName = t.accountName)) with
        | some tx0 =>
            have hfind : (txs ++ [t]).find? (fun tx => decide (tx.accountName = t.accountName)) =
                some tx0 := by
              rw [List.find?_append, hf]; rfl
            rw [hfind]
            simp [debitSum_append_eq, creditSum_append_eq]
        | none =>
            have habs : ∀ tx ∈ txs, tx.accountName ≠ t.accountName := by
              intro tx hm
              have := List.find?_eq_none.mp hf tx hm
              simpa using this
            have hfind : (txs ++ [t]).find? (fun tx => decide (tx.accountName = t.accountName)) =
                some t := by
              rw [List.find?_append, hf]
              simp [List.find?]
            rw [hfind]
            simp [debitSum_append_eq, creditSum_append_eq,
              debitSum_of_absent txs t.accountName habs,
              creditSum_of_absent txs t.accountName habs]
      · rw [applyTx_find_ne _ _ _ h, ih]
        have hfind : (txs ++ [t]).find? (fun tx => decide (tx.accountName = name)) =
            txs.find? (fun tx => decide (tx.accountName = name)) := by
          rw [List.find?_append]
          have h1 : [t].find? (fun tx => decide (tx.accountName = name)) = none := by
            simp [List.find?, h]
          rw [h1]
          cases txs.find? (fun tx => decide (tx.accountName = name)) <;> rfl
        rw [hfind, debitSum_append_ne txs t name h, creditSum_append_ne txs t name h]

lemma firstSeenNames_append (txs : List Transaction) (t : Transaction) :
    firstSeenNames (txs ++ [t]) =
      if t.accountName ∈ firstSeenNames txs then firstSeenNames txs
      else firstSeenNames txs ++ [t.accountName] := by
  simp [firstSeenNames, List.foldl_append]

lemma tb_names (txs : List Transaction) :
    (buildTrialBalance txs).map (·.accountName) = firstSeenNames txs := by
  induction txs using List.reverseRecOn with
  | nil => rfl
  | append_singleton txs t ih =>
      rw [buildTrialBalance_append, applyTx_names, ih, firstSeenNames_append]

lemma firstSeenNames_nodup (txs : List Transaction) : (firstSeenNames txs).Nodup := by
  induction txs using List.reverseRecOn with
  | nil => simp [firstSeenNames]
  | append_singleton txs t ih =>
      rw [firstSeenNames_append]
      by_cases hm : t.accountName ∈ firstSeenNames txs
      · simpa [hm] using ih
      · simp [hm, List.nodup_append, ih]

lemma mem_firstSeenNames (txs : List Transaction) (name : String) :
    name ∈ firstSeenNames txs ↔ name ∈ txs.map (·.accountName) := by
  induction txs using List.reverseRecOn generalizing name with
  | nil => simp [firstSeenNames]
  | append_singleton txs t ih =>
      rw [firstSeenNames_append]
      by_cases hm : t.accountName ∈ firstSeenNames txs
      · rw [if_pos hm, ih]
        have hmm : t.accountName ∈ txs.map (·.accountName) := (ih t.accountName).mp hm
        simp only [List.map_append, List.mem_append, List.map_cons, List.map_nil,
          List.mem_singleton]
        constructor
        · exact Or.inl
        · rintro (h1 | rfl)
          · exact h1
          · exact hmm
      · rw [if_neg hm]
        simp [List.mem_append, List.map_append, ih name]

lemma find?_of_mem_nodup (tb : List TrialBalanceItem) (it : TrialBalanceItem)
    (hnd : (tb.map (·.accountName)).Nodup) (hm : it ∈ tb) :
    tb.find? (fun x => decide (x.accountName = it.accountName)) = some it := by
  induction tb with
  | nil => cases hm
  | cons a rest ih =>
      rcases List.mem_cons.mp hm with rfl | hm2
      · simp [List.find?]
      · rw [List.map_cons] at hnd
        have hnd2 := List.nodup_cons.mp hnd
        have hne : ¬(a.accountName = it.accountName) := by
          intro he
          exact hnd2.1 (he ▸ List.mem_map_of_mem (·.accountName) hm2)
        simp only [List.find?, decide_eq_false hne]
        exact ih hnd2.2 hm2

/-- Every trial-balance row carries the first-seen category and the
per-account debit and credit totals of its account. -/
lemma tb_entries (txs : List Transaction) :
    ∀ it ∈ buildTrialBalance txs,
      it.debit = debitSum txs it.accountName ∧
      it.credit = creditSum txs it.accountName ∧
      (txs.find? fun tx => decide (tx.accountName = it.accountName)).map (·.category) =
        some it.category := by
  intro it hm
  have hnd : ((buildTrialBalance txs).map (·.accountName)).Nodup := by
    rw [tb_names]; exact firstSeenNames_nodup txs
  have hfind := find?_of_mem_nodup (buildTrialBalance txs) it hnd hm
  have hchar := tb_find txs it.accountName
  rw [hfind] at hchar
  cases hf : txs.find? (fun tx => decide (tx.accountName = it.accountName)) with
  | none => rw [hf] at hchar; cases hchar
  | some tx0 =>
      rw [hf] at hchar
      have h2 : it = (⟨it.accountName, tx0.category, debitSum txs it.accountName,
          creditSum txs it.accountName⟩ : TrialBalanceItem) := by
        simpa using hchar
      refine ⟨?_, ?_, ?_⟩
      · rw [h2]
      · rw [h2]
      · rw [h2]; rfl

lemma debitSum_perm {txs txs' : List Transaction} (h : txs.Perm txs') (name : String) :
    debitSum txs name = debitSum txs' name :=
  List.Perm.sum_eq ((h.filter _).map _)

lemma creditSum_perm {txs txs' : List Transaction} (h : txs.Perm txs') (name : String) :
    creditSum txs name = creditSum txs' name :=
  List.Perm.sum_eq ((h.filter _).map _)

/-- C4: the trial balance has exactly one row per distinct account name in
first-seen order; each row totals its account's Debit amounts in `debit`
and Credit amounts in `credit` and carries the category of the first
transaction seen for that account; and permuting the input never changes
any account's totals. -/
theorem claim_C4_trial_balance (txs : List Transaction) :
    ((calculateStatements txs).trialBalance.map (·.accountName) = firstSeenNames txs ∧
      ((calculateStatements txs).trialBalance.map (·.accountName)).Nodup) ∧
    (∀ it ∈ (calculateStatements txs).trialBalance,
      it.debit = debitSum txs it.accountName ∧
      it.credit = creditSum txs it.accountName ∧
      (txs.find? fun tx => decide (tx.accountName = it.accountName)).map (·.category) =
        some it.category) ∧
    (∀ txs' : List Transaction, txs.Perm txs' →
      ∀ it ∈ (calculateStatements txs).trialBalance,
        ∀ it' ∈ (calculateStatements txs').trialBalance,
          it.accountName = it'.accountName →
          it.debit = it'.debit ∧ it.credit = it'.credit) := by
  rw [cs_trialBalance]
  refine ⟨⟨tb_names txs, ?_⟩, tb_entries txs, ?_⟩
  · rw [tb_names]; exact firstSeenNames_nodup txs
  · intro txs' hperm it hmem it' hmem' hname
    rw [cs_trialBalance] at hmem'
    obtain ⟨hd, hc, -⟩ := tb_entries txs it hmem
    obtain ⟨hd', hc', -⟩ := tb_entries txs' it' hmem'
    rw [hd, hc, hd', hc', hname, debitSum_perm hperm, creditSum_perm hperm]
    exact ⟨rfl, rfl⟩

/-- C5: net income is total revenue minus total expenses; exactly one
synthetic `Current Period Earnings` row equal to net income is appended to
the balance-sheet equity rows; that row is counted in `totalEquity`; and
the trial balance itself contains only rows for account names occurring in
the input (no synthetic row). -/
theorem claim_C5_net_income_and_synthetic_row (txs : List Transaction) :
    (calculateStatements txs).incomeStatement.netIncome =
      (calculateStatements txs).incomeStatement.totalRevenue -
        (calculateStatements txs).incomeStatement.totalExpenses ∧
    (calculateStatements txs).balanceSheet.equity =
      rawEquityItems (calculateStatements txs).trialBalance ++
        [⟨"Current Period Earnings", (calculateStatements txs).incomeStatement.netIncome⟩] ∧
    (calculateStatements txs).balanceSheet.totalEquity =
      sumAmounts (rawEquityItems (calculateStatements txs).trialBalance) +
        (calculateStatements txs).incomeStatement.netIncome ∧
    (∀ it ∈ (calculateStatements txs).trialBalance,
      it.accountName ∈ txs.map (·.accountName)) := by
  refine ⟨rfl, rfl, ?_, ?_⟩
  · rw [cs_totalEquity, cs_equity, sumAmounts_append, sumAmounts_singleton, cs_trialBalance]
  · intro it hm
    rw [cs_trialBalance] at hm
    have h1 : it.accountName ∈ (buildTrialBalance txs).map (·.accountName) :=
      List.mem_map_of_mem (·.accountName) hm
    rw [tb_names] at h1
    exact (mem_firstSeenNames txs it.accountName).mp h1

/-! ## The accounting identity (C1) -/

/-- Sum of the amounts of all Debit-type transactions. -/
def totalDebits (txs : List Transaction) : ℚ :=
  ((txs.filter fun tx => decide (tx.type = TransactionType.DEBIT)).map (·.amount)).sum

/-- Sum of the amounts of all Credit-type transactions. -/
def totalCredits (txs : List Transaction) : ℚ :=
  ((txs.filter fun tx => decide (tx.type = TransactionType.CREDIT)).map (·.amount)).sum

/-- Sum of `debit - credit` over all trial-balance rows. -/
def dcSum (tb : List TrialBalanceItem) : ℚ :=
  (tb.map fun it => it.debit - it.credit).sum

/-- Sum of `debit - credit` over the trial-balance rows of one category. -/
def catSum (tb : List TrialBalanceItem) (c : AccountCategory) : ℚ :=
  ((tb.filter fun it => decide (it.category = c)).map fun it => it.debit - it.credit).sum

lemma applyTx_dcSum (acc : List TrialBalanceItem) (t : Transaction) :
    dcSum (applyTx acc t) = dcSum acc + signedAmount t := by
  induction acc with
  | nil =>
      cases ht : t.type <;>
        simp [applyTx, dcSum, debitInc, creditInc, signedAmount, ht]
  | cons it rest ih =>
      by_cases h : it.accountName = t.accountName
      · cases ht : t.type <;>
          simp [applyTx, h, dcSum, debitInc, creditInc, signedAmount, ht] <;> ring
      · simp only [applyTx, if_neg h]
        simp only [dcSum, List.map_cons, List.sum_cons] at ih ⊢
        rw [ih]; ring

lemma tb_dcSum (txs : List Transaction) :
    dcSum (buildTrialBalance txs) = totalDebits txs - totalCredits txs := by
  induction txs using List.reverseRecOn with
  | nil => simp [buildTrialBalance, dcSum, totalDebits, totalCredits]
  | append_singleton txs t ih =>
      rw [buildTrialBalance_append, applyTx_dcSum, ih]
      cases ht : t.type <;>
        simp [totalDebits, totalCredits, signedAmount, List.filter_append, List.filter, ht] <;>
        ring

lemma dcSum_partition (tb : List TrialBalanceItem) :
    dcSum tb = catSum tb AccountCategory.ASSET + catSum tb AccountCategory.LIABILITY +
      catSum tb AccountCategory.EQUITY + catSum tb AccountCategory.REVENUE +
      catSum tb AccountCategory.EXPENSE := by
  induction tb with
  | nil => simp [dcSum, catSum]
  | cons it rest ih =>
      cases hc : it.category <;>
        simp [dcSum, catSum, hc, List.filter, List.map_cons, List.sum_cons] at ih ⊢ <;>
        linarith

lemma sum_map_sub_neg (l : List TrialBalanceItem) :
    ((l.map fun it => it.credit - it.debit)).sum =
      -((l.map fun it => it.debit - it.credit)).sum := by
  induction l with
  | nil => simp
  | cons it rest ih => simp [ih]; ring

lemma sum_map_amount_mk (l : List TrialBalanceItem) (f : TrialBalanceItem → ℚ) :
    (((l.map fun i => (⟨i.accountName, f i⟩ : StatementItem)).map (·.amount))).sum =
      (l.map f).sum := by
  induction l with
  | nil => rfl
  | cons a rest ih =>
      simp only [List.map_cons, List.sum_cons]
      rw [ih]

lemma sumAmounts_assetItems (tb : List TrialBalanceItem) :
    sumAmounts (assetItems tb) = catSum tb AccountCategory.ASSET := by
  rw [sumAmounts_eq]
  unfold assetItems catSum
  exact sum_map_amount_mk _ _

lemma sumAmounts_expenseItems (tb : List TrialBalanceItem) :
    sumAmounts (expenseItems tb) = catSum tb AccountCategory.EXPENSE := by
  rw [sumAmounts_eq]
  unfold expenseItems catSum
  exact sum_map_amount_mk _ _

lemma sumAmounts_liabilityItems (tb : List TrialBalanceItem) :
    sumAmounts (liabilityItems tb) = -catSum tb AccountCategory.LIABILITY := by
  rw [sumAmounts_eq]
  unfold liabilityItems catSum
  rw [sum_map_amount_mk]
  exact sum_map_sub_neg _

lemma sumAmounts_revenueItems (tb : List TrialBalanceItem) :
    sumAmounts (revenueItems tb) = -catSum tb AccountCategory.REVENUE := by
  rw [sumAmounts_eq]
  unfold revenueItems catSum
  rw [sum_map_amount_mk]
  exact sum_map_sub_neg _

lemma sumAmounts_rawEquityItems (tb : List TrialBalanceItem) :
    sumAmounts (rawEquityItems tb) = -catSum tb AccountCategory.EQUITY := by
  rw [sumAmounts_eq]
  unfold rawEquityItems catSum
  rw [sum_map_amount_mk]
  exact sum_map_sub_neg _

/-- C1: for a balanced double-entry ledger (total Debit amounts equal
total Credit amounts), the derived balance sheet satisfies
`totalAssets = totalLiabilities + totalEquity`, where `totalEquity`
includes the synthetic `Current Period Earnings` row; exact equality in
the rational-number model. -/
theorem claim_C1_balance_sheet_identity (txs : List Transaction)
    (hbal : totalDebits txs = totalCredits txs) :
    (calculateStatements txs).balanceSheet.totalAssets =
      (calculateStatements txs).balanceSheet.totalLiabilities +
        (calculateStatements txs).balanceSheet.totalEquity := by
  have h1 := tb_dcSum txs
  have h2 := dcSum_partition (buildTrialBalance txs)
  rw [cs_totalAssets, cs_totalLiabilities, cs_totalEquity, cs_equity,
    sumAmounts_append, sumAmounts_singleton, cs_netIncome]
  rw [sumAmounts_assetItems, sumAmounts_liabilityItems, sumAmounts_rawEquityItems,
    sumAmounts_revenueItems, sumAmounts_expenseItems]
  dsimp only
  linarith [h1, h2, hbal]

/-- A small balanced double-entry ledger used as the C1 witness. -/
def balancedLedger : List Transaction :=
  [⟨"1", "2023-10-01", "capital", "Cash", AccountCategory.ASSET, 50, TransactionType.DEBIT⟩,
   ⟨"2", "2023-10-01", "capital", "Common Stock", AccountCategory.EQUITY, 50, TransactionType.CREDIT⟩,
   ⟨"3", "2023-10-10", "sale", "Cash", AccountCategory.ASSET, 20, TransactionType.DEBIT⟩,
   ⟨"4", "2023-10-10", "sale", "Sales Revenue", AccountCategory.REVENUE, 20, TransactionType.CREDIT⟩]

/-- Witness for C1 on a concrete balanced ledger. -/
theorem claim_C1_balance_sheet_identity_witness :
    totalDebits balancedLedger = totalCredits balancedLedger ∧
    (calculateStatements balancedLedger).balanceSheet.totalAssets =
      (calculateStatements balancedLedger).balanceSheet.totalLiabilities +
        (calculateStatements balancedLedger).balanceSheet.totalEquity :=
  ⟨by with_unfolding_all decide,
   claim_C1_balance_sheet_identity balancedLedger (by with_unfolding_all decide)⟩

/-! ## C2: the reconciliation algorithm as described by the spec -/

/-- Spec-side recursion for §4.7, following the spec's words: for each
book entry in input order, take the head of the statement entries that are
not yet consumed and whose date and signed amount match exactly (first
match in statement-list order); on success emit `matched` and consume the
id, on failure emit `missing_in_statement`; after all book entries emit
`missing_in_book` for every never-consumed statement entry in original
statement order. -/
def reconSpecGo (sts : List BankStatementItem) :
    List Transaction → List String → List ReconMatch
  | [], consumed =>
      (sts.filter fun st => !decide (st.id ∈ consumed)).map
        fun st => ⟨none, some st, ReconStatus.missing_in_book⟩
  | book :: rest, consumed =>
      match ((sts.filter fun st => !decide (st.id ∈ consumed)).filter fun st =>
          st.date == book.date && decide (st.amount = signedAmount book)).head? with
      | some st =>
          ⟨some book, some st, ReconStatus.matched⟩ :: reconSpecGo sts rest (consumed ++ [st.id])
      | none =>
          ⟨some book, none, ReconStatus.missing_in_statement⟩ :: reconSpecGo sts rest consumed

/-- Top-level form of the spec-side reconciliation description. -/
def bankReconSpec (bookEntries : List Transaction)
    (statementEntries : List BankStatementItem) : List ReconMatch :=
  reconSpecGo statementEntries bookEntries []

lemma find?_congr {α : Type} (l : List α) (p q : α → Bool) (h : ∀ a, p a = q a) :
    l.find? p = l.find? q := by
  induction l with
  | nil => rfl
  | cons a rest ih =>
      simp only [List.find?, h a]
      cases q a
      · exact ih
      · rfl

lemma head?_filter_filter {α : Type} (l : List α) (p q : α → Bool) :
    ((l.filter p).filter q).head? = l.find? fun a => p a && q a := by
  induction l with
  | nil => rfl
  | cons a rest ih =>
      have hcomm : List.find? (fun x => q x && p x) rest = List.find? (fun x => p x && q x) rest :=
        find?_congr _ _ _ fun x => Bool.and_comm _ _
      cases hp : p a <;> cases hq : q a <;>
        simp [List.filter, List.find?, hp, hq, ih, hcomm]

lemma reconGo_eq_specGo (sts : List BankStatementItem) :
    ∀ (books : List Transaction) (consumed : List String),
      reconGo sts books consumed = reconSpecGo sts books consumed := by
  intro books
  induction books with
  | nil => intro consumed; rfl
  | cons book rest ih =>
      intro consumed
      have hpred :
          ((sts.filter fun st => !decide (st.id ∈ consumed)).filter fun st =>
            st.date == book.date && decide (st.amount = signedAmount book)).head? =
          sts.find? (reconPred consumed book.date (signedAmount book)) := by
        rw [head?_filter_filter]
        refine find?_congr _ _ _ fun st => ?_
        rw [reconPred, Bool.and_comm]
      simp only [reconGo, reconSpecGo, hpred]
      cases sts.find? (reconPred consumed book.date (signedAmount book)) with
      | some st => simp [ih]
      | none => simp [ih]

/-- C2: under unique statement ids, `performBankReconciliation` produces
exactly the record sequence described by the spec: for each book entry in
input order the first unconsumed statement entry with identical date and
identical signed amount is matched (consuming its id) or a
`missing_in_statement` record is emitted, and afterwards every
never-consumed statement entry yields a `missing_in_book` record in
original statement order. -/
theorem claim_C2_reconciliation_refines_spec (books : List Transaction)
    (sts : List BankStatementItem) (_huniq : (sts.map (·.id)).Nodup) :
    performBankReconciliation books sts = bankReconSpec books sts := by
  rw [recon_eq_go, bankReconSpec, reconGo_eq_specGo]

/-- Book entries used by the reconciliation witnesses. -/
def reconBooks : List Transaction :=
  [⟨"b1", "2023-10-05", "rent", "Cash", AccountCategory.ASSET, 2000, TransactionType.CREDIT⟩,
   ⟨"b2", "2023-10-10", "sale", "Cash", AccountCategory.ASSET, 12000, TransactionType.DEBIT⟩,
   ⟨"b3", "2023-11-01", "misc", "Cash", AccountCategory.ASSET, 7, TransactionType.DEBIT⟩]

/-- Statement entries used by the reconciliation witnesses. -/
def reconSts : List BankStatementItem :=
  [⟨"st1", "2023-10-05", "CHECK 101", -2000⟩,
   ⟨"st2", "2023-10-10", "POS CREDIT", 12000⟩,
   ⟨"st5", "2023-10-22", "BANK FEE", -25⟩]

/-- Witness for C2 on concrete data with unique statement ids. -/
theorem claim_C2_reconciliation_refines_spec_witness :
    (reconSts.map (·.id)).Nodup ∧
      performBankReconciliation reconBooks reconSts = bankReconSpec reconBooks reconSts :=
  ⟨by decide, claim_C2_reconciliation_refines_spec reconBooks reconSts (by decide)⟩

/-- Witness instance of C4 on a concrete ledger: the trial-balance key
order is the first-seen account order. -/
theorem claim_C4_trial_balance_witness :
    (calculateStatements balancedLedger).trialBalance.map (·.accountName) =
      firstSeenNames balancedLedger :=
  (claim_C4_trial_balance balancedLedger).1.1

/-- Witness instance of C5 on a concrete ledger: `totalEquity` counts the
synthetic earnings row. -/
theorem claim_C5_net_income_and_synthetic_row_witness :
    (calculateStatements balancedLedger).balanceSheet.totalEquity =
      sumAmounts (rawEquityItems (calculateStatements balancedLedger).trialBalance) +
        (calculateStatements balancedLedger).incomeStatement.netIncome :=
  (claim_C5_net_income_and_synthetic_row balancedLedger).2.2.1

/-! ## C7: trend aggregator -/

/-- Sum of the amounts of Revenue-category transactions whose date falls
in the named month. -/
def revSum (txs : List Transaction) (name : String) : ℚ :=
  ((txs.filter fun tx =>
    decide (monthLabel tx.date = some name ∧
      tx.category = AccountCategory.REVENUE)).map (·.amount)).sum

/-- Sum of the amounts of Expense-category transactions whose date falls
in the named month. -/
def expSum (txs : List Transaction) (name : String) : ℚ :=
  ((txs.filter fun tx =>
    decide (monthLabel tx.date = some name ∧
      tx.category = AccountCategory.EXPENSE)).map (·.amount)).sum

/-- Sum of the amounts of all Revenue-category transactions. -/
def revenueTotal (txs : List Transaction) : ℚ :=
  ((txs.filter fun tx => decide (tx.category = AccountCategory.REVENUE)).map (·.amount)).sum

/-- Sum of the monthly revenue buckets of a trend series. -/
def trendRevenueTotal (ps : List TrendPoint) : ℚ :=
  (ps.map (·.revenue)).sum

lemma lookupA_setA_eq (m : List (String × TrendAcc)) (k : String) (v : TrendAcc) :
    lookupA (setA m k v) k = some v := by
  induction m with
  | nil => simp [setA, lookupA]
  | cons kw rest ih =>
      obtain ⟨k2, w⟩ := kw
      by_cases h : k2 = k
      · simp [setA, lookupA, h]
      · simp [setA, lookupA, h, ih]

lemma lookupA_setA_ne (m : List (String × TrendAcc)) (k : String) (v : TrendAcc)
    (k2 : String) (h : k ≠ k2) : lookupA (setA m k v) k2 = lookupA m k2 := by
  induction m with
  | nil => simp [setA, lookupA, h]
  | cons kw rest ih =>
      obtain ⟨k3, w⟩ := kw
      by_cases h3 : k3 = k
      · subst h3
        simp [setA, lookupA, h]
      · simp only [setA, if_neg h3]
        by_cases h32 : k3 = k2
        · simp [lookupA, h32]
        · simp [lookupA, h32, ih]

lemma trend_entry (txs : List Transaction) (name : String) :
    (lookupA (txs.foldl trendStep []) name).getD ⟨0, 0, 0⟩ =
      ⟨revSum txs name, expSum txs name, revSum txs name - expSum txs name⟩ := by
  induction txs using List.reverseRecOn with
  | nil => simp [lookupA, revSum, expSum]
  | append_singleton txs t ih =>
      rw [List.foldl_append, List.foldl_cons, List.foldl_nil]
      cases hml : monthLabel t.date with
      | none =>
          have h1 : revSum (txs ++ [t]) name = revSum txs name := by
            simp [revSum, List.filter_append, List.filter, hml]
          have h2 : expSum (txs ++ [t]) name = expSum txs name := by
            simp [expSum, List.filter_append, List.filter, hml]
          simp only [trendStep, hml]
          rw [ih, h1, h2]
      | some label =>
          simp only [trendStep, hml]
          by_cases hname : label = name
          · subst hname
            rw [lookupA_setA_eq, Option.getD_some, ih]
            rcases hcat : t.category with hA | hL | hE | hR | hX
            all_goals
              simp [revSum, expSum, List.filter_append, List.filter, hml, hcat]
          · rw [lookupA_setA_ne _ _ _ _ hname, ih]
            have hsome : ¬(monthLabel t.date = some name) := by
              rw [hml]
              simp [hname]
            have h1 : revSum (txs ++ [t]) name = revSum txs name := by
              simp [revSum, List.filter_append, List.filter, hsome]
            have h2 : expSum (txs ++ [t]) name = expSum txs name := by
              simp [expSum, List.filter_append, List.filter, hsome]
            rw [h1, h2]

lemma getTrendData_eq (txs : List Transaction) :
    getTrendData txs = monthNames.map fun name =>
      ⟨name, revSum txs name, expSum txs name, revSum txs name - expSum txs name⟩ := by
  unfold getTrendData
  refine List.map_congr_left fun name _ => ?_
  have h := trend_entry txs name
  cases hl : lookupA (txs.foldl trendStep []) name with
  | some d =>
      rw [hl, Option.getD_some] at h
      rw [h]
  | none =>
      rw [hl, Option.getD_none] at h
      have h1 : (0 : ℚ) = revSum txs name := congrArg TrendAcc.revenue h
      have h2 : (0 : ℚ) = expSum txs name := congrArg TrendAcc.expense h
      have h3 : (0 : ℚ) = revSum txs name - expSum txs name := congrArg TrendAcc.profit h
      simp only []
      rw [← h1, ← h2]
      simp

lemma monthLabel_mem (d : String) (lb : String) (h : monthLabel d = some lb) :
    lb ∈ monthNames := by
  obtain ⟨i, -, hget⟩ := Option.bind_eq_some.mp h
  exact List.get?_mem hget

lemma sum_map_add {α : Type} (l : List α) (f g : α → ℚ) :
    (l.map fun a => f a + g a).sum = (l.map f).sum + (l.map g).sum := by
  induction l with
  | nil => simp
  | cons a rest ih => simp [ih]; ring

lemma sum_ite_not_mem (L : List String) (lb : String) (a : ℚ) (h : lb ∉ L) :
    (L.map fun n => if lb = n then a else 0).sum = 0 := by
  induction L with
  | nil => rfl
  | cons n rest ih =>
      have h1 : lb ≠ n := fun he => h (he ▸ List.mem_cons_self n rest)
      have h2 : lb ∉ rest := fun he => h (List.mem_cons_of_mem n he)
      simp [h1, ih h2]

lemma sum_ite_nodup (L : List String) (lb : String) (a : ℚ) (hnd : L.Nodup)
    (hm : lb ∈ L) : (L.map fun n => if lb = n then a else 0).sum = a := by
  induction L with
  | nil => cases hm
  | cons n rest ih =>
      rcases List.mem_cons.mp hm with rfl | hm2
      · have hout : lb ∉ rest := (List.nodup_cons.mp hnd).1
        simp [sum_ite_not_mem rest lb a hout]
      · have hne : lb ≠ n := by
          rintro rfl
          exact (List.nodup_cons.mp hnd).1 hm2
        simp only [List.map_cons, List.sum_cons, if_neg hne]
        rw [ih (List.nodup_cons.mp hnd).2 hm2]
        ring

lemma revSum_cons (tx : Transaction) (txs : List Transaction) (name : String) :
    revSum (tx :: txs) name =
      (if monthLabel tx.date = some name ∧ tx.category = AccountCategory.REVENUE
        then tx.amount else 0) + revSum txs name := by
  by_cases hc : monthLabel tx.date = some name ∧ tx.category = AccountCategory.REVENUE <;>
    simp [revSum, List.filter, hc]

lemma revenueTotal_cons (tx : Transaction) (txs : List Transaction) :
    revenueTotal (tx :: txs) =
      (if tx.category = AccountCategory.REVENUE then tx.amount else 0) + revenueTotal txs := by
  by_cases hc : tx.category = AccountCategory.REVENUE <;>
    simp [revenueTotal, List.filter, hc]

lemma sum_revSum (txs : List Transaction)
    (h : ∀ tx ∈ txs, tx.category = AccountCategory.REVENUE →
      ∃ lb ∈ monthNames, monthLabel tx.date = some lb) :
    (monthNames.map fun n => revSum txs n).sum = revenueTotal txs := by
  induction txs with
  | nil =>
      have : ∀ n ∈ monthNames, revSum ([] : List Transaction) n = 0 := by
        intro n _
        simp [revSum]
      rw [List.map_congr_left this]
      simp [revenueTotal]
  | cons tx txs ih =>
      have hstep : (monthNames.map fun n => revSum (tx :: txs) n) =
          monthNames.map fun n =>
            (if monthLabel tx.date = some n ∧ tx.category = AccountCategory.REVENUE
              then tx.amount else 0) + revSum txs n :=
        List.map_congr_left fun n _ => revSum_cons tx txs n
      rw [hstep, sum_map_add, revenueTotal_cons,
        ih fun t ht hc => h t (List.mem_cons_of_mem tx ht) hc]
      by_cases hcat : tx.category = AccountCategory.REVENUE
      · obtain ⟨lb, hlbmem, hml⟩ := h tx (List.mem_cons_self tx txs) hcat
        have hite : (monthNames.map fun n =>
            if monthLabel tx.date = some n ∧ tx.category = AccountCategory.REVENUE
              then tx.amount else 0) =
            monthNames.map fun n => if lb = n then tx.amount else 0 := by
          refine List.map_congr_left fun n _ => ?_
          rw [hml]
          simp [hcat, Option.some.injEq]
        rw [hite, sum_ite_nodup monthNames lb tx.amount (by decide) hlbmem, if_pos hcat]
      · have hite : (monthNames.map fun n =>
            if monthLabel tx.date = some n ∧ tx.category = AccountCategory.REVENUE
              then tx.amount else 0) = monthNames.map fun _ => (0 : ℚ) := by
          refine List.map_congr_left fun n _ => ?_
          simp [hcat]
        rw [hite, if_neg hcat]
        simp

/-- C7: under valid transaction dates, the trend series has exactly the
twelve calendar months in January-December order; a month with no
Revenue- or Expense-category transaction reports zero revenue, expense
and profit; and the twelve monthly revenue buckets sum to the total of
all Revenue-category amounts. -/
theorem claim_C7_trend_series (txs : List Transaction)
    (hvalid : ∀ tx ∈ txs, (monthLabel tx.date).isSome = true) :
    ((getTrendData txs).map (·.month) = monthNames ∧ (getTrendData txs).length = 12) ∧
    (∀ p ∈ getTrendData txs,
      (∀ tx ∈ txs, monthLabel tx.date = some p.month →
        ¬(tx.category = AccountCategory.REVENUE ∨
          tx.category = AccountCategory.EXPENSE)) →
      p.revenue = 0 ∧ p.expense = 0 ∧ p.profit = 0) ∧
    trendRevenueTotal (getTrendData txs) = revenueTotal txs := by
  refine ⟨⟨?_, ?_⟩, ?_, ?_⟩
  · rw [getTrendData_eq, List.map_map]
    have : ((fun p : TrendPoint => p.month) ∘ fun name =>
        (⟨name, revSum txs name, expSum txs name, revSum txs name - expSum txs name⟩ :
          TrendPoint)) = id := by
      funext name
      rfl
    rw [this, List.map_id]
  · rw [getTrendData_eq, List.length_map]
    rfl
  · intro p hp hnone
    rw [getTrendData_eq] at hp
    obtain ⟨name, -, rfl⟩ := List.mem_map.mp hp
    have hrev : revSum txs name = 0 := by
      have hfil : (txs.filter fun tx =>
          decide (monthLabel tx.date = some name ∧
            tx.category = AccountCategory.REVENUE)) = [] := by
        refine List.filter_eq_nil_iff.mpr fun tx hm => ?_
        simp only [decide_eq_true_eq, not_and]
        intro hml
        exact fun hcat => (hnone tx hm hml) (Or.inl hcat)
      unfold revSum
      rw [hfil]
      rfl
    have hexp : expSum txs name = 0 := by
      have hfil : (txs.filter fun tx =>
          decide (monthLabel tx.date = some name ∧
            tx.category = AccountCategory.EXPENSE)) = [] := by
        refine List.filter_eq_nil_iff.mpr fun tx hm => ?_
        simp only [decide_eq_true_eq, not_and]
        intro hml
        exact fun hcat => (hnone tx hm hml) (Or.inr hcat)
      unfold expSum
      rw [hfil]
      rfl
    refine ⟨hrev, hexp, ?_⟩
    simp [hrev, hexp]
  · rw [getTrendData_eq]
    unfold trendRevenueTotal
    rw [List.map_map]
    have heq : ((fun p : TrendPoint => p.revenue) ∘ fun name =>
        (⟨name, revSum txs name, expSum txs name, revSum txs name - expSum txs name⟩ :
          TrendPoint)) = fun name => revSum txs name := by
      funext name
      rfl
    rw [heq]
    refine sum_revSum txs fun tx htx _ => ?_
    obtain ⟨lb, hlb⟩ := Option.isSome_iff_exists.mp (hvalid tx htx)
    exact ⟨lb, monthLabel_mem tx.date lb hlb, hlb⟩

/-- Transactions used as the C7 witness: valid ISO dates across two
years. -/
def trendLedger : List Transaction :=
  [⟨"1", "2023-10-10", "sale", "Sales Revenue", AccountCategory.REVENUE, 12, TransactionType.CREDIT⟩,
   ⟨"2", "2022-10-03", "sale", "Sales Revenue", AccountCategory.REVENUE, 5, TransactionType.CREDIT⟩,
   ⟨"3", "2023-01-05", "rent", "Rent Expense", AccountCategory.EXPENSE, 7, TransactionType.DEBIT⟩]

/-- Witness for C7 on concrete data. -/
theorem claim_C7_trend_series_witness :
    (∀ tx ∈ trendLedger, (monthLabel tx.date).isSome = true) ∧
    trendRevenueTotal (getTrendData trendLedger) = revenueTotal trendLedger :=
  ⟨by decide, (claim_C7_trend_series trendLedger (by decide)).2.2⟩

/-! ## C3: count stability under reordering of value-identical entries -/

/-- The value of a statement entry as seen by the matcher: its date and
signed amount. -/
def stVal (st : BankStatementItem) : String × ℚ := (st.date, st.amount)

/-- Number of reconciliation records carrying a given status. -/
def countStatus (ms : List ReconMatch) (s : ReconStatus) : Nat :=
  (ms.filter fun m => decide (m.status = s)).length

/-- First index satisfying a Boolean predicate. -/
def findIdxA {α : Type} (p : α → Bool) : List α → Option Nat
  | [] => none
  | a :: l => if p a then some 0 else (findIdxA p l).map (· + 1)

lemma find?_eq_findIdxA {α : Type} (p : α → Bool) (l : List α) :
    l.find? p = (findIdxA p l).bind fun i => l.get? i := by
  induction l with
  | nil => rfl
  | cons a rest ih =>
      by_cases hp : p a
      · simp [findIdxA, List.find?, hp]
      · simp only [findIdxA, if_neg hp, List.find?, hp]
        rw [ih]
        cases hf : findIdxA p rest with
        | none => rfl
        | some i => simp [List.get?]

lemma findIdxA_lt {α : Type} (p : α → Bool) :
    ∀ (l : List α) (i : Nat), findIdxA p l = some i → i < l.length := by
  intro l
  induction l with
  | nil => intro i h; cases h
  | cons a rest ih =>
      intro i h
      by_cases hp : p a
      · rw [findIdxA, if_pos hp] at h
        cases h
        simp
      · rw [findIdxA, if_neg hp] at h
        cases hf : findIdxA p rest with
        | none => rw [hf] at h; cases h
        | some j =>
            rw [hf] at h
            simp only [Option.map_some'] at h
            have h2 : j + 1 = i := Option.some.inj h
            have hj := ih j hf
            simp only [List.length_cons]
            omega

lemma findIdxA_congr {α β : Type} (p : α → Bool) (q : β → Bool) :
    ∀ (l : List α) (l2 : List β),
      (∀ i : Nat, (l.get? i).map p = (l2.get? i).map q) →
      findIdxA p l = findIdxA q l2 := by
  intro l
  induction l with
  | nil =>
      intro l2 hpt
      cases l2 with
      | nil => rfl
      | cons b bs =>
          have h0 := hpt 0
          simp at h0
  | cons a as ih =>
      intro l2 hpt
      cases l2 with
      | nil =>
          have h0 := hpt 0
          simp at h0
      | cons b bs =>
          have h0 := hpt 0
          simp only [List.get?, Option.map_some'] at h0
          have hpq : p a = q b := by simpa using h0
          have htail : ∀ i : Nat, (as.get? i).map p = (bs.get? i).map q := by
            intro i
            have := hpt (i + 1)
            simpa [List.get?] using this
          simp only [findIdxA, hpq, ih bs htail]

lemma filter_length_congr {α β : Type} (p : α → Bool) (q : β → Bool) :
    ∀ (l : List α) (l2 : List β),
      (∀ i : Nat, (l.get? i).map p = (l2.get? i).map q) →
      (l.filter p).length = (l2.filter q).length := by
  intro l
  induction l with
  | nil =>
      intro l2 hpt
      cases l2 with
      | nil => rfl
      | cons b bs => have h0 := hpt 0; simp at h0
  | cons a as ih =>
      intro l2 hpt
      cases l2 with
      | nil => have h0 := hpt 0; simp at h0
      | cons b bs =>
          have h0 := hpt 0
          simp only [List.get?, Option.map_some'] at h0
          have hpq : p a = q b := by simpa using h0
          have htail : ∀ i : Nat, (as.get? i).map p = (bs.get? i).map q := by
            intro i
            have := hpt (i + 1)
            simpa [List.get?] using this
          cases hq : q b <;>
            simp [List.filter, hpq, hq, ih bs htail]

lemma map_status_missing (L : List BankStatementItem) :
    ((L.map fun st =>
      (⟨none, some st, ReconStatus.missing_in_book⟩ : ReconMatch)).map (·.status)) =
      List.replicate L.length ReconStatus.missing_in_book := by
  induction L with
  | nil => rfl
  | cons a rest ih => simp [List.replicate_succ, ih]

lemma id_eq_iff_pos (sts : List BankStatementItem) (hnd : (sts.map (·.id)).Nodup)
    (i j : Nat) (hi : i < sts.length) (hj : j < sts.length) :
    ((sts.get ⟨j, hj⟩).id = (sts.get ⟨i, hi⟩).id) ↔ j = i := by
  constructor
  · intro h
    have hmap : (sts.map (·.id)).get? j = (sts.map (·.id)).get? i := by
      rw [List.get?_map, List.get?_map, List.get?_eq_get hi, List.get?_eq_get hj]
      simpa using h
    exact List.get?_inj (by simpa using hj) hnd hmap
  · rintro rfl
    rfl

/-- Two statement lists that agree position-by-position on date and
amount, both with unique ids, drive the reconciliation loop through the
same status sequence whenever the consumed-id lists mark the same
positions. -/
lemma reconGo_statuses_congr (sts sts2 : List BankStatementItem)
    (hval : sts.map stVal = sts2.map stVal)
    (hnd : (sts.map (·.id)).Nodup) (hnd2 : (sts2.map (·.id)).Nodup) :
    ∀ (books : List Transaction) (consumed consumed2 : List String),
      (∀ i : Nat, ((sts.get? i).map fun st => decide (st.id ∈ consumed)) =
            ((sts2.get? i).map fun st => decide (st.id ∈ consumed2))) →
      (reconGo sts books consumed).map (·.status) =
        (reconGo sts2 books consumed2).map (·.status) := by
  have hlen : sts.length = sts2.length := by
    have := congrArg List.length hval
    simpa using this
  have hvalpt : ∀ i : Nat, (sts.get? i).map stVal = (sts2.get? i).map stVal := by
    intro i
    rw [← List.get?_map, ← List.get?_map, hval]
  intro books
  induction books with
  | nil =>
      intro consumed consumed2 hinv
      simp only [reconGo]
      rw [map_status_missing, map_status_missing]
      have hplen : ((sts.filter fun st => !decide (st.id ∈ consumed)).length) =
          ((sts2.filter fun st => !decide (st.id ∈ consumed2)).length) := by
        refine filter_length_congr _ _ sts sts2 fun i => ?_
        have h := hinv i
        cases ha : sts.get? i with
        | none =>
            cases hb : sts2.get? i with
            | none => rfl
            | some b => rw [ha, hb] at h; simp at h
        | some a =>
            cases hb : sts2.get? i with
            | none => rw [ha, hb] at h; simp at h
            | some b =>
                rw [ha, hb] at h
                simp only [Option.map_some'] at h ⊢
                rw [Option.some.inj h]
      rw [hplen]
  | cons book rest ih =>
      intro consumed consumed2 hinv
      have hpred : ∀ i : Nat,
          ((sts.get? i).map (reconPred consumed book.date (signedAmount book))) =
          ((sts2.get? i).map (reconPred consumed2 book.date (signedAmount book))) := by
        intro i
        have hv := hvalpt i
        have hm := hinv i
        cases ha : sts.get? i with
        | none =>
            cases hb : sts2.get? i with
            | none => rfl
            | some b => rw [ha, hb] at hv; simp at hv
        | some a =>
            cases hb : sts2.get? i with
            | none => rw [ha, hb] at hv; simp at hv
            | some b =>
                rw [ha, hb] at hv hm
                simp only [Option.map_some'] at hv hm ⊢
                have hv2 := Option.some.inj hv
                have hdate : a.date = b.date := congrArg Prod.fst hv2
                have hamt : a.amount = b.amount := congrArg Prod.snd hv2
                have hmem := Option.some.inj hm
                rw [reconPred, reconPred, hdate, hamt, hmem]
      have hidx := findIdxA_congr _ _ sts sts2 hpred
      cases hf : findIdxA (reconPred consumed book.date (signedAmount book)) sts with
      | none =>
          have hn1 : sts.find? (reconPred consumed book.date (signedAmount book)) = none := by
            rw [find?_eq_findIdxA, hf]; rfl
          have hn2 : sts2.find? (reconPred consumed2 book.date (signedAmount book)) = none := by
            rw [find?_eq_findIdxA, ← hidx, hf]; rfl
          simp only [reconGo, hn1, hn2, List.map_cons]
          rw [ih consumed consumed2 hinv]
      | some i =>
          have hi : i < sts.length := findIdxA_lt _ sts i hf
          have hi2 : i < sts2.length := by rw [← hlen]; exact hi
          have hs1 : sts.find? (reconPred consumed book.date (signedAmount book)) =
              some (sts.get ⟨i, hi⟩) := by
            rw [find?_eq_findIdxA, hf]
            simp [List.get?_eq_get hi]
          have hs2 : sts2.find? (reconPred consumed2 book.date (signedAmount book)) =
              some (sts2.get ⟨i, hi2⟩) := by
            rw [find?_eq_findIdxA, ← hidx, hf]
            simp [List.get?_eq_get hi2]
          have hinv2 : ∀ j : Nat,
              ((sts.get? j).map fun st =>
                decide (st.id ∈ consumed ++ [(sts.get ⟨i, hi⟩).id])) =
              ((sts2.get? j).map fun st =>
                decide (st.id ∈ consumed2 ++ [(sts2.get ⟨i, hi2⟩).id])) := by
            intro j
            have hm := hinv j
            cases ha : sts.get? j with
            | none =>
                have hb : sts2.get? j = none := by
                  rw [List.get?_eq_none] at ha ⊢
                  rw [← hlen]
                  exact ha
                rw [hb]
                rfl
            | some x =>
                have hj : j < sts.length := by
                  by_contra hc
                  rw [not_lt, ← List.get?_eq_none] at hc
                  rw [hc] at ha
                  cases ha
                have hj2 : j < sts2.length := by rw [← hlen]; exact hj
                have hb : sts2.get? j = some (sts2.get ⟨j, hj2⟩) := List.get?_eq_get hj2
                have hax : x = sts.get ⟨j, hj⟩ := by
                  rw [List.get?_eq_get hj] at ha
                  exact (Option.some.inj ha).symm
                subst hax
                rw [hb]
                rw [ha, hb] at hm
                simp only [Option.map_some'] at hm ⊢
                have hmem : ((sts.get ⟨j, hj⟩).id ∈ consumed) ↔
                    ((sts2.get ⟨j, hj2⟩).id ∈ consumed2) :=
                  decide_eq_decide.mp (Option.some.inj hm)
                congr 1
                refine decide_eq_decide.mpr ?_
                rw [List.mem_append, List.mem_append, List.mem_singleton, List.mem_singleton,
                  id_eq_iff_pos sts hnd i j hi hj, id_eq_iff_pos sts2 hnd2 i j hi2 hj2, hmem]
          simp only [reconGo, hs1, hs2, List.map_cons]
          rw [ih _ _ hinv2]

lemma countStatus_eq_map (ms : List ReconMatch) (s : ReconStatus) :
    countStatus ms s = ((ms.map (·.status)).filter fun t => decide (t = s)).length := by
  unfold countStatus
  induction ms with
  | nil => rfl
  | cons m rest ih =>
      by_cases h : m.status = s <;> simp [List.filter, h, ih]

/-- C3: permuting the statement list in a way that only reorders
value-identical entries (the position-by-position dates and amounts are
unchanged) never changes the number of `matched`, `missing_in_statement`
or `missing_in_book` records, although which physical entry is paired may
differ. -/
theorem claim_C3_reconciliation_count_stable (books : List Transaction)
    (sts sts2 : List BankStatementItem) (hperm : sts.Perm sts2)
    (hval : sts.map stVal = sts2.map stVal)
    (hnd : (sts.map (·.id)).Nodup) :
    countStatus (performBankReconciliation books sts) ReconStatus.matched =
      countStatus (performBankReconciliation books sts2) ReconStatus.matched ∧
    countStatus (performBankReconciliation books sts) ReconStatus.missing_in_statement =
      countStatus (performBankReconciliation books sts2) ReconStatus.missing_in_statement ∧
    countStatus (performBankReconciliation books sts) ReconStatus.missing_in_book =
      countStatus (performBankReconciliation books sts2) ReconStatus.missing_in_book := by
  have hnd2 : (sts2.map (·.id)).Nodup := (hperm.map (·.id)).nodup_iff.mp hnd
  have hlen : sts.length = sts2.length := by
    have := congrArg List.length hval
    simpa using this
  have hstat : (performBankReconciliation books sts).map (·.status) =
      (performBankReconciliation books sts2).map (·.status) := by
    rw [recon_eq_go, recon_eq_go]
    refine reconGo_statuses_congr sts sts2 hval hnd hnd2 books [] [] fun i => ?_
    cases ha : sts.get? i with
    | none =>
        have hb : sts2.get? i = none := by
          rw [List.get?_eq_none] at ha ⊢
          rw [← hlen]
          exact ha
        rw [hb]
    | some a =>
        have hi : i < sts.length := by
          by_contra hc
          rw [not_lt, ← List.get?_eq_none] at hc
          rw [hc] at ha
          cases ha
        have hb : sts2.get? i = some (sts2.get ⟨i, by rw [← hlen]; exact hi⟩) :=
          List.get?_eq_get _
        rw [hb]
        simp
  have hcount : ∀ s : ReconStatus,
      countStatus (performBankReconciliation books sts) s =
        countStatus (performBankReconciliation books sts2) s := by
    intro s
    rw [countStatus_eq_map, countStatus_eq_map, hstat]
  exact ⟨hcount _, hcount _, hcount _⟩

/-- Statement entries with a duplicated (date, amount) pair, in original
order. -/
def stsValueTwins : List BankStatementItem :=
  [⟨"s1", "2023-10-05", "first deposit", 25⟩,
   ⟨"s2", "2023-10-05", "second deposit", 25⟩,
   ⟨"s3", "2023-10-09", "other", 4⟩]

/-- The same entries with the two value-identical ones swapped. -/
def stsValueTwinsSwapped : List BankStatementItem :=
  [⟨"s2", "2023-10-05", "second deposit", 25⟩,
   ⟨"s1", "2023-10-05", "first deposit", 25⟩,
   ⟨"s3", "2023-10-09", "other", 4⟩]

/-- Book entries used by the C3 witness. -/
def booksTwins : List Transaction :=
  [⟨"bw1", "2023-10-05", "deposit", "Cash", AccountCategory.ASSET, 25, TransactionType.DEBIT⟩]

/-- Witness for C3 on concrete data: swapping the two value-identical
statement entries leaves all three counts unchanged. -/
theorem claim_C3_reconciliation_count_stable_witness :
    (stsValueTwins.map stVal = stsValueTwinsSwapped.map stVal ∧
      (stsValueTwins.map (·.id)).Nodup) ∧
    (countStatus (performBankReconciliation booksTwins stsValueTwins) ReconStatus.matched =
      countStatus (performBankReconciliation booksTwins stsValueTwinsSwapped)
        ReconStatus.matched ∧
    countStatus (performBankReconciliation booksTwins stsValueTwins)
        ReconStatus.missing_in_statement =
      countStatus (performBankReconciliation booksTwins stsValueTwinsSwapped)
        ReconStatus.missing_in_statement ∧
    countStatus (performBankReconciliation booksTwins stsValueTwins)
        ReconStatus.missing_in_book =
      countStatus (performBankReconciliation booksTwins stsValueTwinsSwapped)
        ReconStatus.missing_in_book) :=
  ⟨⟨by decide, by decide⟩,
   claim_C3_reconciliation_count_stable booksTwins stsValueTwins stsValueTwinsSwapped
     (by unfold stsValueTwins stsValueTwinsSwapped; exact List.Perm.swap _ _ _)
     (by decide) (by decide)⟩

/-- A concrete record of the witness reconciliation run. -/
def reconWitnessRecord : ReconMatch :=
  ⟨some ⟨"b1", "2023-10-05", "rent", "Cash", AccountCategory.ASSET, 2000,
      TransactionType.CREDIT⟩,
   some ⟨"st1", "2023-10-05", "CHECK 101", -2000⟩, ReconStatus.matched⟩

/-- Witness for C9 on concrete data: a record of the output has one of the
three produced statuses and is not an amount mismatch. -/
theorem claim_C9_no_amount_mismatch_witness :
    reconWitnessRecord ∈ performBankReconciliation reconBooks reconSts ∧
    ((reconWitnessRecord.status = ReconStatus.matched ∨
        reconWitnessRecord.status = ReconStatus.missing_in_statement ∨
        reconWitnessRecord.status = ReconStatus.missing_in_book) ∧
      reconWitnessRecord.status ≠ ReconStatus.amount_mismatch) :=
  ⟨by decide,
   claim_C9_no_amount_mismatch reconBooks reconSts reconWitnessRecord (by decide)⟩

end Fin2
